import Mathlib

set_option maxRecDepth 8000

/-!
Shallow embedding of the pda-log structured, leveled logging library (Go).

Source files modelled: level.go, logger.go, event.go, hook.go, natsHook.go.

Modelling conventions:
* Go `Level` is an `int8` used only with order and equality; it is embedded
  as `Int`.
* A Go `map[string]interface{}` is embedded as an association list with
  unique keys (`Fields`): `setK` is map assignment, `getK` is map lookup,
  `unionK` is the `for k, v := range src` copy loop.  Because a Go map has
  unique keys, the order of the copy loop does not affect the resulting map
  contents; where iteration order is observable (NatsHook.Fire), the list
  order of the association list stands for one admissible iteration order of
  the Go map (Go leaves that order unspecified).
* Go `interface{}` field values are embedded as the inductive `Value`;
  `Value.vAny` covers arbitrary further payloads passed through `Any`.
* `time.Time` is embedded as `Nat` and `time.Time.Format` as an
  uninterpreted parameter `fmt : Nat → String → String` threaded through
  emission; `json.Marshal` is an uninterpreted fallible parameter
  `marshal : Fields → Option String`.
* An `io.Writer` sink is identified by a number; instead of performing
  effects, emission returns an `EmitResult` recording the line written to
  the sink, the hook firings in order, the diagnostic lines written to the
  standard error stream, and whether the process-exit step was reached.
* The mutex of logger.go guards concurrent access only; the sequential
  behaviour modelled here is unchanged by it.
-/

/-- Go type Level from level.go, an int8; only order and equality are used. -/
abbrev Level := Int

/-- DebugLevel from level.go (iota value 0). -/
def DebugLevel : Level := 0

/-- InfoLevel from level.go. -/
def InfoLevel : Level := 1

/-- WarnLevel from level.go. -/
def WarnLevel : Level := 2

/-- ErrorLevel from level.go. -/
def ErrorLevel : Level := 3

/-- FatalLevel from level.go. -/
def FatalLevel : Level := 4

/-- Go method Level.String from level.go: lookup in the levelNames map,
with default "unknown" for unmapped values. -/
def Level.String (l : Level) : String :=
  if l = DebugLevel then "debug"
  else if l = InfoLevel then "info"
  else if l = WarnLevel then "warn"
  else if l = ErrorLevel then "error"
  else if l = FatalLevel then "fatal"
  else "unknown"

/-- ParseLevel from level.go: exact switch on the five lowercase names,
anything else defaults to InfoLevel. -/
def ParseLevel (s : String) : Level :=
  if s = "debug" then DebugLevel
  else if s = "info" then InfoLevel
  else if s = "warn" then WarnLevel
  else if s = "error" then ErrorLevel
  else if s = "fatal" then FatalLevel
  else InfoLevel

/-- Field values held in a log entry (Go interface values).  vDur is a
time.Duration (int64 nanoseconds), vTime a time.Time, vAny an arbitrary
opaque payload stored through Any. -/
inductive Value where
  | vStr (s : String)
  | vInt (n : Int)
  | vBool (b : Bool)
  | vDur (ns : Int)
  | vTime (t : Nat)
  | vAny (tag : Nat)
deriving DecidableEq, Repr

/-- A Go map[string]interface\x7b\x7d, as an association list with unique keys. -/
abbrev Fields := List (String × Value)

/-- Go map assignment m[k] = v: replace the binding of k, or append one. -/
def setK : Fields → String → Value → Fields
  | [], k, v => [(k, v)]
  | p :: rest, k, v => if p.1 = k then (k, v) :: rest else p :: setK rest k v

/-- Go map lookup m[k]. -/
def getK : Fields → String → Option Value
  | [], _ => none
  | p :: rest, k => if p.1 = k then some p.2 else getK rest k

/-- Go copy loop for k, v := range src with dst[k] = v, fields of src
processed in list order. -/
def unionK (dst src : Fields) : Fields :=
  src.foldl (fun a p => setK a p.1 p.2) dst

/-- Invariant of the Go map representation: each key is bound once. -/
def keysUnique (m : Fields) : Prop := (m.map Prod.fst).Nodup

instance (m : Fields) : Decidable (keysUnique m) :=
  inferInstanceAs (Decidable (m.map Prod.fst).Nodup)

/-- Go interface Hook from hook.go: Fire is modelled by recording the hook's
identity with the entry it receives; id models the Go interface identity
used by RemoveHook, levels models the Levels() subscription list. -/
structure Hook where
  id : Nat
  levels : List Level
deriving DecidableEq, Repr

/-- Go struct Event from event.go, the data of a non-nil event pointer: its
level, its creation timestamp, and its field map.  The logger pointer of the
Go struct is modelled by passing the logger's state to Msg explicitly. -/
structure EventData where
  level : Level
  time : Nat
  fields : Fields
deriving DecidableEq, Repr

/-- A Go *Event: none is the nil no-op sentinel returned below threshold. -/
abbrev Event := Option EventData

/-- Go struct Logger from logger.go.  The writer is a sink identifier; the
mutex is not part of the sequential state. -/
structure Logger where
  writer : Nat
  level : Level
  timeFormat : String
  contextFields : Fields
  hooks : List Hook
deriving DecidableEq, Repr

/-- Go time.RFC3339 layout string. -/
def rfc3339 : String := "2006-01-02T15:04:05Z07:00"

/-- Sink identifier standing for os.Stdout. -/
def stdoutSink : Nat := 0

/-- Go struct Options from logger.go; Writer is an interface that may be
nil, modelled by Option. -/
structure Options where
  writer : Option Nat
  level : Level
  timeFormat : String
deriving DecidableEq, Repr

/-- DefaultOptions from logger.go. -/
def DefaultOptions : Options := ⟨some stdoutSink, InfoLevel, rfc3339⟩

/-- The zero value of Options in Go: nil Writer, Level 0, empty TimeFormat. -/
def zeroOptions : Options := ⟨none, 0, ""⟩

/-- New from logger.go: defaults the writer when nil and the time format
when empty; the level is taken from the options unchanged. -/
def New (opts : Options) : Logger :=
  let w := match opts.writer with
    | none => stdoutSink
    | some w => w
  let tf := if opts.timeFormat = "" then rfc3339 else opts.timeFormat
  ⟨w, opts.level, tf, [], []⟩

/-- NewConsoleLogger from logger.go. -/
def NewConsoleLogger : Logger := New DefaultOptions

/-- SetLevel from logger.go (state passing instead of mutation). -/
def Logger.SetLevel (lg : Logger) (l : Level) : Logger := { lg with level := l }

/-- GetLevel from logger.go. -/
def Logger.GetLevel (lg : Logger) : Level := lg.level

/-- With from logger.go: a fresh logger sharing writer, level and time
format, whose context map is a copy of the parent's plus the new binding,
and whose hook list starts empty. -/
def Logger.With (lg : Logger) (key : String) (value : Value) : Logger :=
  ⟨lg.writer, lg.level, lg.timeFormat, setK (unionK [] lg.contextFields) key value, []⟩

/-- newEvent from logger.go: nil below the current level, otherwise a fresh
event stamped now and seeded with a copy of the context fields. -/
def Logger.newEvent (lg : Logger) (now : Nat) (lvl : Level) : Event :=
  if lvl < lg.level then none
  else some ⟨lvl, now, unionK [] lg.contextFields⟩

/-- Debug from logger.go. -/
def Logger.Debug (lg : Logger) (now : Nat) : Event := lg.newEvent now DebugLevel

/-- Info from logger.go. -/
def Logger.Info (lg : Logger) (now : Nat) : Event := lg.newEvent now InfoLevel

/-- Warn from logger.go. -/
def Logger.Warn (lg : Logger) (now : Nat) : Event := lg.newEvent now WarnLevel

/-- Error from logger.go. -/
def Logger.Error (lg : Logger) (now : Nat) : Event := lg.newEvent now ErrorLevel

/-- Fatal from logger.go. -/
def Logger.Fatal (lg : Logger) (now : Nat) : Event := lg.newEvent now FatalLevel

/-- AddHook from logger.go: append to the hook list. -/
def Logger.AddHook (lg : Logger) (h : Hook) : Logger :=
  { lg with hooks := lg.hooks ++ [h] }

/-- The removal loop of RemoveHook from logger.go: drop the first hook equal
to the given one (interface identity), then break. -/
def removeFirst : List Hook → Hook → List Hook
  | [], _ => []
  | x :: rest, h => if x = h then rest else x :: removeFirst rest h

/-- RemoveHook from logger.go. -/
def Logger.RemoveHook (lg : Logger) (h : Hook) : Logger :=
  { lg with hooks := removeFirst lg.hooks h }

/-- Str from event.go: nil receiver is a no-op, otherwise set the field. -/
def Event.Str (e : Event) (key val : String) : Event :=
  match e with
  | none => none
  | some ed => some { ed with fields := setK ed.fields key (Value.vStr val) }

/-- Int from event.go. -/
def Event.Int (e : Event) (key : String) (val : Int) : Event :=
  match e with
  | none => none
  | some ed => some { ed with fields := setK ed.fields key (Value.vInt val) }

/-- Bool from event.go. -/
def Event.Bool (e : Event) (key : String) (val : Bool) : Event :=
  match e with
  | none => none
  | some ed => some { ed with fields := setK ed.fields key (Value.vBool val) }

/-- Err from event.go: nil error leaves the fields untouched, otherwise the
error's message is stored under the key "error". -/
def Event.Err (e : Event) (err : Option String) : Event :=
  match e with
  | none => none
  | some ed =>
    match err with
    | none => some ed
    | some m => some { ed with fields := setK ed.fields "error" (Value.vStr m) }

/-- Any from event.go. -/
def Event.Any (e : Event) (key : String) (val : Value) : Event :=
  match e with
  | none => none
  | some ed => some { ed with fields := setK ed.fields key val }

/-- Duration from event.go. -/
def Event.Duration (e : Event) (key : String) (val : ℤ) : Event :=
  match e with
  | none => none
  | some ed => some { ed with fields := setK ed.fields key (Value.vDur val) }

/-- Time from event.go. -/
def Event.Time (e : Event) (key : String) (val : Nat) : Event :=
  match e with
  | none => none
  | some ed => some { ed with fields := setK ed.fields key (Value.vTime val) }

/-- Hex digit of a value below 16, lowercase, as produced by Go fmt %x. -/
def hexDigit (n : Nat) : Char :=
  if n < 10 then Char.ofNat (48 + n) else Char.ofNat (87 + n)

/-- Two lowercase hex digits of one byte. -/
def hexByte (b : Nat) : List Char := [hexDigit ((b / 16) % 16), hexDigit (b % 16)]

/-- Go fmt.Sprintf %x of a byte slice: lowercase hex, two digits per byte. -/
def hexEncode (bs : List Nat) : String :=
  String.mk (bs.foldr (fun b acc => hexByte b ++ acc) [])

/-- Hex from event.go. -/
def Event.Hex (e : Event) (key : String) (val : List Nat) : Event :=
  match e with
  | none => none
  | some ed => some { ed with fields := setK ed.fields key (Value.vStr (hexEncode val)) }

/-- Entry construction of Msg in event.go: the map literal binds level, time
and message first, then the copy loop writes every event field over it, so a
field named like a reserved key overwrites the reserved value. -/
def buildEntry (lvl : Level) (timeStr msg : String) (fs : Fields) : Fields :=
  unionK
    (setK (setK (setK [] "level" (Value.vStr (Level.String lvl)))
        "time" (Value.vStr timeStr))
      "message" (Value.vStr msg))
    fs

/-- The shouldFire scan of Msg in event.go: linear search of Levels() for
the event's level. -/
def shouldFire (h : Hook) (lvl : Level) : Bool :=
  h.levels.any (fun l => decide (l = lvl))

/-- The hook dispatch loop of Msg in event.go, recording (hook id, entry)
for each hook that fires, in list (registration) order. -/
def fireHooks (hs : List Hook) (lvl : Level) (entry : Fields) : List (Nat × Fields) :=
  hs.foldl (fun acc h => if shouldFire h lvl then acc ++ [(h.id, entry)] else acc) []

/-- Observable outcome of one Msg call: the finalized entry (none for a
no-op event), the line written to the sink, the hook firings in order, the
diagnostic lines written to standard error, and whether the os.Exit step was
reached. -/
structure EmitResult where
  entry : Option Fields
  written : Option String
  fired : List (Nat × Fields)
  diags : List String
  exited : Bool
deriving DecidableEq, Repr

/-- Msg from event.go: nil receiver returns immediately; otherwise finalize
the entry, marshal it (on failure report to standard error and abort without
writing or firing hooks), write the line plus newline to the sink, dispatch
hooks in order, and reach the exit step when the level is FatalLevel. -/
def Event.Msg (fmt : Nat → String → String) (marshal : Fields → Option String)
    (lg : Logger) (e : Event) (msg : String) : EmitResult :=
  match e with
  | none => ⟨none, none, [], [], false⟩
  | some ed =>
    let entry := buildEntry ed.level (fmt ed.time lg.timeFormat) msg ed.fields
    match marshal entry with
    | none => ⟨some entry, none, [], ["Error marshaling log entry"], false⟩
    | some s =>
      ⟨some entry, some (s ++ "\n"), fireHooks lg.hooks ed.level entry, [],
        decide (ed.level = FatalLevel)⟩

/-- Go struct NatsHook from natsHook.go; the connection is modelled by
returning the published subject and payload from Fire. -/
structure NatsHook where
  subject : String
  levels : List Level
deriving DecidableEq, Repr

/-- NewNatsHook from natsHook.go: an empty level list defaults to all five. -/
def NewNatsHook (subject : String) (levels : List Level) : NatsHook :=
  if levels = [] then
    ⟨subject, [DebugLevel, InfoLevel, WarnLevel, ErrorLevel, FatalLevel]⟩
  else ⟨subject, levels⟩

/-- Go strings.Replace(s, pat, repl, -1) on character lists: replace each
non-overlapping occurrence left to right.  The fuel argument bounds the
scan; fuel = length of s suffices because each step consumes at least one
character (patterns used here are never empty). -/
def replaceAllFuel : Nat → List Char → List Char → List Char → List Char
  | 0, s, _, _ => s
  | _ + 1, [], _, _ => []
  | fuel + 1, c :: rest, pat, repl =>
    if pat ≠ [] ∧ pat.isPrefixOf (c :: rest) then
      repl ++ replaceAllFuel fuel ((c :: rest).drop pat.length) pat repl
    else c :: replaceAllFuel fuel rest pat repl

/-- Go strings.Replace with n = -1 (replace all occurrences). -/
def replaceAll (s pat repl : List Char) : List Char :=
  replaceAllFuel s.length s pat repl

/-- The substitution loop of NatsHook.Fire in natsHook.go: iterate the entry
bindings (list order standing for the Go map iteration order, which Go
leaves unspecified); for each string-valued binding replace every occurrence
of \x7bkey\x7d in the current subject by the value. -/
def natsSubstitute (entry : Fields) (subject : String) : String :=
  entry.foldl
    (fun subj p =>
      match p.2 with
      | Value.vStr sv =>
        String.mk (replaceAll subj.toList (String.toList ("\x7b" ++ p.1 ++ "\x7d")) sv.toList)
      | _ => subj)
    subject

/-- Fire from natsHook.go: substitute into the subject template, marshal the
entry, and publish; a marshal failure is returned as an error (none). -/
def NatsHook.Fire (marshal : Fields → Option String) (h : NatsHook)
    (entry : Fields) : Option (String × String) :=
  let subj := natsSubstitute entry h.subject
  match marshal entry with
  | none => none
  | some d => some (subj, d)

/-- Modelled from the spec: the single-pass, non-recursive placeholder
substitution that §4.5 describes for NatsHook.Fire — scan the template left
to right; where some \x7bkey\x7d with a string-valued entry[key] starts, emit that
value and continue after the placeholder, so that substituted text is never
rescanned.  This definition exists only to be compared with natsSubstitute,
the substitution the source performs. -/
def findPlaceholder : Fields → List Char → Option (Nat × List Char)
  | [], _ => none
  | (k, v) :: rest, s =>
    match v with
    | Value.vStr sv =>
      let pat := String.toList ("\x7b" ++ k ++ "\x7d")
      if pat.isPrefixOf s then some (pat.length, sv.toList) else findPlaceholder rest s
    | _ => findPlaceholder rest s

/-- Modelled from the spec: driver of the single-pass substitution; fuel =
length of the template suffices because each step consumes at least one
character. -/
def specSubstFuel : Nat → Fields → List Char → List Char
  | 0, _, s => s
  | _ + 1, _, [] => []
  | fuel + 1, entry, c :: rest =>
    match findPlaceholder entry (c :: rest) with
    | some (n, repl) => repl ++ specSubstFuel fuel entry ((c :: rest).drop n)
    | none => c :: specSubstFuel fuel entry rest

/-- Modelled from the spec: single-pass non-recursive substitution over a
template (§4.5). -/
def specSubstSinglePass (entry : Fields) (subject : String) : String :=
  String.mk (specSubstFuel subject.toList.length entry subject.toList)

/-! ## Map lemmas -/

/-- Lookup after map assignment. -/
theorem getK_setK (m : Fields) (k : String) (v : Value) (k' : String) :
    getK (setK m k v) k' = if k' = k then some v else getK m k' := by
  induction m with
  | nil =>
    simp only [setK, getK]
    by_cases h : k' = k
    · rw [if_pos (h ▸ rfl : k = k'), if_pos h]
    · rw [if_neg (fun hh => h hh.symm), if_neg h]
  | cons p rest ih =>
    by_cases hp : p.1 = k
    · simp only [setK, if_pos hp, getK]
      by_cases h : k' = k
      · rw [if_pos (h ▸ rfl : k = k'), if_pos h]
      · rw [if_neg (fun hh => h hh.symm), if_neg h, if_neg (fun hh => h ((hp ▸ hh : k = k')).symm)]
    · simp only [setK, if_neg hp, getK]
      by_cases hq : p.1 = k'
      · rw [if_pos hq, if_pos hq, if_neg (fun hh : k' = k => hp (hq.symm ▸ hh : p.1 = k))]
      · rw [if_neg hq, if_neg hq, ih]

/-- A key is absent from the map exactly when its lookup yields none. -/
theorem getK_eq_none_iff (m : Fields) (k : String) :
    getK m k = none ↔ k ∉ m.map Prod.fst := by
  induction m with
  | nil => simp [getK]
  | cons p rest ih =>
    simp only [getK, List.map_cons, List.mem_cons]
    by_cases hp : p.1 = k
    · simp only [if_pos hp]
      constructor
      · intro h
        exact absurd h (by simp)
      · intro h
        exact absurd hp.symm (fun hh => h (Or.inl hh))
    · simp only [if_neg hp, ih]
      constructor
      · intro h hmem
        rcases hmem with hh | hh
        · exact hp hh.symm
        · exact h hh
      · intro h hh
        exact h (Or.inr hh)

/-- Map assignment can only add the assigned key. -/
theorem mem_keys_setK (m : Fields) (k : String) (v : Value) (a : String)
    (h : a ∈ (setK m k v).map Prod.fst) : a ∈ m.map Prod.fst ∨ a = k := by
  induction m with
  | nil =>
    simp only [setK, List.map_cons, List.map_nil, List.mem_cons,
      List.not_mem_nil, or_false] at h
    exact Or.inr h
  | cons p rest ih =>
    by_cases hp : p.1 = k
    · simp only [setK, if_pos hp, List.map_cons, List.mem_cons] at h
      rcases h with h | h
      · exact Or.inr h
      · exact Or.inl (by simp only [List.map_cons, List.mem_cons]; exact Or.inr h)
    · simp only [setK, if_neg hp, List.map_cons, List.mem_cons] at h
      rcases h with h | h
      · exact Or.inl (by simp only [List.map_cons, List.mem_cons]; exact Or.inl h)
      · rcases ih h with hh | hh
        · exact Or.inl (by simp only [List.map_cons, List.mem_cons]; exact Or.inr hh)
        · exact Or.inr hh

/-- Map assignment preserves key uniqueness. -/
theorem keysUnique_setK (m : Fields) (k : String) (v : Value)
    (hu : keysUnique m) : keysUnique (setK m k v) := by
  induction m with
  | nil => simp [setK, keysUnique]
  | cons p rest ih =>
    rw [keysUnique, List.map_cons, List.nodup_cons] at hu
    by_cases hp : p.1 = k
    · rw [keysUnique]
      simp only [setK, if_pos hp, List.map_cons, List.nodup_cons]
      exact ⟨hp ▸ hu.1, hu.2⟩
    · rw [keysUnique]
      simp only [setK, if_neg hp, List.map_cons, List.nodup_cons]
      refine ⟨fun hmem => ?_, ih hu.2⟩
      rcases mem_keys_setK rest k v p.1 hmem with h | h
      · exact hu.1 h
      · exact hp h

/-- The copy loop preserves key uniqueness of the destination. -/
theorem keysUnique_unionK (dst src : Fields) (hu : keysUnique dst) :
    keysUnique (unionK dst src) := by
  induction src generalizing dst with
  | nil => exact hu
  | cons p rest ih =>
    exact ih (setK dst p.1 p.2) (keysUnique_setK dst p.1 p.2 hu)

/-- Lookup after the copy loop, when the source has unique keys: a binding
of the source wins, otherwise the destination answers. -/
theorem getK_unionK (dst src : Fields) (k : String) (hu : keysUnique src) :
    getK (unionK dst src) k =
      match getK src k with
      | some v => some v
      | none => getK dst k := by
  induction src generalizing dst with
  | nil => simp [unionK, getK]
  | cons p rest ih =>
    rw [keysUnique, List.map_cons, List.nodup_cons] at hu
    have step : unionK dst (p :: rest) = unionK (setK dst p.1 p.2) rest := rfl
    rw [step, ih (setK dst p.1 p.2) hu.2]
    by_cases hp : p.1 = k
    · have hnone : getK rest k = none := (getK_eq_none_iff rest k).mpr (hp ▸ hu.1)
      simp only [getK, if_pos hp, hnone, getK_setK, if_pos (hp ▸ rfl : k = p.1)]
    · simp only [getK, if_neg hp]
      cases h : getK rest k with
      | some v => simp
      | none => simp [getK_setK, if_neg (fun hh : k = p.1 => hp hh.symm)]

/-! ## Concrete instantiations used to evaluate the pipeline -/

/-- A concrete time formatter used to instantiate the uninterpreted
time.Time.Format parameter. -/
def sampleFmt : Nat → String → String := fun t layout => toString t ++ "|" ++ layout

/-- A concrete always-successful serializer instantiating json.Marshal. -/
def sampleMarshal : Fields → Option String := fun _ => some "json"

/-- A concrete always-failing serializer instantiating json.Marshal. -/
def failMarshal : Fields → Option String := fun _ => none

/-! ## C8: field-setters and Msg on the no-op sentinel -/

/-- C8: every field-setter (Str, Int, Bool, Err, Any, Duration, Time, Hex)
applied to the no-op Event sentinel returns the sentinel, and Msg on the
sentinel writes nothing, fires no hooks, reports no diagnostics, and does
not reach the exit step. -/
theorem C8_noop_safety :
    ∀ (fmt : Nat → String → String) (marshal : Fields → Option String)
      (lg : Logger) (key val : String) (n : Int) (b : Bool) (d : Int)
      (t : Nat) (bs : List Nat) (va : Value) (err : Option String)
      (msg : String),
      Event.Str none key val = none
    ∧ Event.Int none key n = none
    ∧ Event.Bool none key b = none
    ∧ Event.Err none err = none
    ∧ Event.Any none key va = none
    ∧ Event.Duration none key d = none
    ∧ Event.Time none key t = none
    ∧ Event.Hex none key bs = none
    ∧ Event.Msg fmt marshal lg none msg = ⟨none, none, [], [], false⟩ := by
  intro fmt marshal lg key val n b d t bs va err msg
  exact ⟨rfl, rfl, rfl, rfl, rfl, rfl, rfl, rfl, rfl⟩

/-! ## C9: ParseLevel totality and roundtrip -/

/-- C9: ParseLevel yields one of the five levels for every input, every
input other than the five canonical lowercase names (including the empty
string and mixed case) maps to InfoLevel, and Level.String after ParseLevel
is the identity on the five canonical names. -/
theorem C9_parse_level_total :
    (∀ s : String,
        ParseLevel s = DebugLevel ∨ ParseLevel s = InfoLevel
      ∨ ParseLevel s = WarnLevel ∨ ParseLevel s = ErrorLevel
      ∨ ParseLevel s = FatalLevel)
  ∧ (∀ s : String, s ≠ "debug" → s ≠ "info" → s ≠ "warn" → s ≠ "error" →
      s ≠ "fatal" → ParseLevel s = InfoLevel)
  ∧ Level.String (ParseLevel "debug") = "debug"
  ∧ Level.String (ParseLevel "info") = "info"
  ∧ Level.String (ParseLevel "warn") = "warn"
  ∧ Level.String (ParseLevel "error") = "error"
  ∧ Level.String (ParseLevel "fatal") = "fatal"
  ∧ ParseLevel "" = InfoLevel
  ∧ ParseLevel "DEBUG" = InfoLevel := by
  refine ⟨?_, ?_, by decide, by decide, by decide, by decide, by decide,
    by decide, by decide⟩
  · intro s
    unfold ParseLevel
    split_ifs <;> simp
  · intro s h1 h2 h3 h4 h5
    unfold ParseLevel
    rw [if_neg h1, if_neg h2, if_neg h3, if_neg h4, if_neg h5]

/-- Witness for C9 at the concrete garbage input "garbage". -/
theorem C9_witness :
    ("garbage" : String) ≠ "debug" ∧ ParseLevel "garbage" = InfoLevel :=
  ⟨by decide,
    C9_parse_level_total.2.1 "garbage" (by decide) (by decide) (by decide)
      (by decide) (by decide)⟩

/-! ## C2: the level default of New -/

/-- C2 counterexample: for the zero-value Options (unset minimum level),
New yields a logger whose minimum level is DebugLevel, not InfoLevel, and on
that logger Debug().Msg(text) does produce an output line — the claim
predicted level Info and no Debug output. -/
theorem C2_counterexample :
    (New zeroOptions).level ≠ InfoLevel
  ∧ (New zeroOptions).level = DebugLevel
  ∧ (Event.Msg sampleFmt sampleMarshal (New zeroOptions)
      (Logger.Debug (New zeroOptions) 0) "x").written ≠ none := by
  refine ⟨by decide, by decide, ?_⟩
  intro h
  simp only [Event.Msg, Logger.Debug, Logger.newEvent] at h
  revert h
  decide

/-- C2 amended: New leaves the minimum level exactly as given in the
options (no Info defaulting inside New); the zero value of Level is
DebugLevel, so a zero-value Options yields a Debug-level logger on which
both Debug().Msg and Info().Msg produce an output line; the Info default
exists only in DefaultOptions, used by NewConsoleLogger, on which
Debug().Msg produces no output. -/
theorem C2_level_default :
    (∀ opts : Options, (New opts).level = opts.level)
  ∧ DefaultOptions.level = InfoLevel
  ∧ NewConsoleLogger.level = InfoLevel
  ∧ (New zeroOptions).level = DebugLevel
  ∧ (Event.Msg sampleFmt sampleMarshal (New zeroOptions)
      (Logger.Debug (New zeroOptions) 0) "x").written = some ("json" ++ "\n")
  ∧ (Event.Msg sampleFmt sampleMarshal (New zeroOptions)
      (Logger.Info (New zeroOptions) 0) "x").written = some ("json" ++ "\n")
  ∧ (Event.Msg sampleFmt sampleMarshal NewConsoleLogger
      (Logger.Debug NewConsoleLogger 0) "x").written = none := by
  refine ⟨fun opts => rfl, by decide, by decide, by decide, ?_, ?_, ?_⟩ <;> decide

/-! ## C3: level filtering -/

/-- C3: with a serializer that succeeds, an event created at level lvl and
terminated with Msg produces exactly one output line (the marshalled entry
plus a newline) iff lvl is at least the logger's minimum level; below the
minimum the event factory returns the no-op sentinel and Msg writes no
bytes and fires no hooks. -/
theorem C3_level_filtering (fmt : Nat → String → String)
    (marshal : Fields → Option String) (lg : Logger) (now : Nat)
    (lvl : Level) (msg : String)
    (hm : ∀ fs : Fields, (marshal fs).isSome) :
    (lg.newEvent now lvl = none ↔ lvl < lg.level)
  ∧ ((Event.Msg fmt marshal lg (lg.newEvent now lvl) msg).written ≠ none
      ↔ lg.level ≤ lvl)
  ∧ (lvl < lg.level →
      Event.Msg fmt marshal lg (lg.newEvent now lvl) msg
        = ⟨none, none, [], [], false⟩)
  ∧ (lg.level ≤ lvl →
      ∃ s, marshal (buildEntry lvl (fmt now lg.timeFormat) msg
              (unionK [] lg.contextFields)) = some s
        ∧ (Event.Msg fmt marshal lg (lg.newEvent now lvl) msg).written
            = some (s ++ "\n")) := by
  by_cases h : lvl < lg.level
  · have hev : lg.newEvent now lvl = none := by
      unfold Logger.newEvent
      rw [if_pos h]
    refine ⟨⟨fun _ => h, fun _ => hev⟩, ?_, fun _ => by rw [hev]; rfl,
      fun hle => absurd h (not_lt.mpr hle)⟩
    rw [hev]
    show (Option.none ≠ none ↔ lg.level ≤ lvl)
    simp only [ne_eq, not_true_eq_false, false_iff]
    exact not_le.mpr h
  · have hev : lg.newEvent now lvl = some ⟨lvl, now, unionK [] lg.contextFields⟩ := by
      unfold Logger.newEvent
      rw [if_neg h]
    have hle : lg.level ≤ lvl := not_lt.mp h
    obtain ⟨s, hs⟩ := Option.isSome_iff_exists.mp
      (hm (buildEntry lvl (fmt now lg.timeFormat) msg (unionK [] lg.contextFields)))
    have hrun : (Event.Msg fmt marshal lg (lg.newEvent now lvl) msg).written
        = some (s ++ "\n") := by
      rw [hev]
      unfold Event.Msg
      simp only [hs]
    refine ⟨⟨fun hc => Option.noConfusion (hev ▸ hc), fun hc => absurd hc h⟩,
      ?_, fun hc => absurd hc h, fun _ => ⟨s, hs, hrun⟩⟩
    rw [hrun]
    simp only [ne_eq, reduceCtorEq, not_false_eq_true, true_iff]
    exact hle

/-- Witness for C3 at a logger with minimum level Info: Debug is suppressed
and Info produces one line. -/
theorem C3_witness :
    (Logger.newEvent (New DefaultOptions) 0 DebugLevel = none
      ↔ DebugLevel < (New DefaultOptions).level)
  ∧ ((Event.Msg sampleFmt sampleMarshal (New DefaultOptions)
        (Logger.newEvent (New DefaultOptions) 0 InfoLevel) "x").written ≠ none
      ↔ (New DefaultOptions).level ≤ InfoLevel) :=
  ⟨(C3_level_filtering sampleFmt sampleMarshal (New DefaultOptions) 0
      DebugLevel "x" (fun _ => rfl)).1,
    (C3_level_filtering sampleFmt sampleMarshal (New DefaultOptions) 0
      InfoLevel "x" (fun _ => rfl)).2.1⟩

/-! ## C7: serialization failure aborts emission -/

/-- C7: when the serializer fails on the finalized entry, Msg reports one
diagnostic line to the standard error stream, writes nothing to the sink,
fires no hook, and does not reach the exit step. -/
theorem C7_marshal_failure_aborts (fmt : Nat → String → String)
    (marshal : Fields → Option String) (lg : Logger) (ed : EventData)
    (msg : String)
    (hfail : marshal (buildEntry ed.level (fmt ed.time lg.timeFormat) msg
        ed.fields) = none) :
    Event.Msg fmt marshal lg (some ed) msg =
      ⟨some (buildEntry ed.level (fmt ed.time lg.timeFormat) msg ed.fields),
        none, [], ["Error marshaling log entry"], false⟩ := by
  unfold Event.Msg
  simp only [hfail]

/-- Witness for C7: a concrete fatal-level event under the always-failing
serializer is abandoned without writing, firing hooks, or exiting. -/
theorem C7_witness :
    failMarshal (buildEntry FatalLevel (sampleFmt 0 "") "x" []) = none
  ∧ Event.Msg sampleFmt failMarshal ⟨0, 0, "", [], [⟨1, [FatalLevel]⟩]⟩
      (some ⟨FatalLevel, 0, []⟩) "x" =
      ⟨some (buildEntry FatalLevel (sampleFmt 0 "") "x" []),
        none, [], ["Error marshaling log entry"], false⟩ :=
  ⟨rfl, C7_marshal_failure_aborts sampleFmt failMarshal
    ⟨0, 0, "", [], [⟨1, [FatalLevel]⟩]⟩ ⟨FatalLevel, 0, []⟩ "x" rfl⟩

/-! ## C10: the exit step -/

/-- C10: when the logger's minimum level is strictly greater than
FatalLevel, Fatal() returns the no-op sentinel and Msg on it writes
nothing, fires no hooks, and does not reach the exit step; moreover, for
any event whatsoever, the exit step is reached only when the event is
active and its level is exactly FatalLevel. -/
theorem C10_fatal_gate (fmt : Nat → String → String)
    (marshal : Fields → Option String) (lg : Logger) (now : Nat)
    (msg : String) (hgt : FatalLevel < lg.level) :
    Logger.Fatal lg now = none
  ∧ Event.Msg fmt marshal lg (Logger.Fatal lg now) msg
      = ⟨none, none, [], [], false⟩
  ∧ (∀ e : Event, (Event.Msg fmt marshal lg e msg).exited = true →
      ∃ ed, e = some ed ∧ ed.level = FatalLevel) := by
  have hev : Logger.Fatal lg now = none := by
    unfold Logger.Fatal Logger.newEvent
    rw [if_pos hgt]
  refine ⟨hev, by rw [hev]; rfl, ?_⟩
  intro e hex
  cases e with
  | none => cases hex
  | some ed =>
    refine ⟨ed, rfl, ?_⟩
    unfold Event.Msg at hex
    revert hex
    cases hmm : marshal (buildEntry ed.level (fmt ed.time lg.timeFormat) msg
        ed.fields) with
    | none => simp only [hmm]; intro hex; cases hex
    | some s => simp only [hmm]; intro hex; exact of_decide_eq_true hex

/-- Witness for C10 at a logger whose minimum level is 5, strictly above
FatalLevel. -/
theorem C10_witness :
    Logger.Fatal ⟨0, 5, "", [], []⟩ 0 = none
  ∧ Event.Msg sampleFmt sampleMarshal ⟨0, 5, "", [], []⟩
      (Logger.Fatal ⟨0, 5, "", [], []⟩ 0) "x" = ⟨none, none, [], [], false⟩ :=
  ⟨(C10_fatal_gate sampleFmt sampleMarshal ⟨0, 5, "", [], []⟩ 0 "x"
      (by decide)).1,
    (C10_fatal_gate sampleFmt sampleMarshal ⟨0, 5, "", [], []⟩ 0 "x"
      (by decide)).2.1⟩

/-! ## Entry characterization -/

/-- Lookup of the copy of a unique-keyed map. -/
theorem getK_unionK_nil (m : Fields) (k : String) (hu : keysUnique m) :
    getK (unionK [] m) k = getK m k := by
  rw [getK_unionK _ _ _ hu]
  cases h : getK m k <;> simp [getK]

/-- Lookup in the finalized entry: a binding of the event's field map wins,
and only otherwise do the reserved keys answer with the level name, the
formatted timestamp and the message. -/
theorem getK_buildEntry (lvl : Level) (timeStr msg : String) (fs : Fields)
    (hu : keysUnique fs) (k : String) :
    getK (buildEntry lvl timeStr msg fs) k =
      match getK fs k with
      | some v => some v
      | none =>
        if k = "message" then some (Value.vStr msg)
        else if k = "time" then some (Value.vStr timeStr)
        else if k = "level" then some (Value.vStr (Level.String lvl))
        else none := by
  unfold buildEntry
  rw [getK_unionK _ _ _ hu]
  cases h : getK fs k with
  | some v => simp
  | none =>
    simp only [getK_setK, getK]
    by_cases h1 : k = "level"
    · subst h1
      simp
    · by_cases h2 : k = "time"
      · subst h2
        simp
      · by_cases h3 : k = "message"
        · subst h3
          simp
        · simp [h1, h2, h3, Ne.symm h1, Ne.symm h2, Ne.symm h3]

/-! ## C1: reserved keys versus caller fields -/

/-- C1 counterexample: an Info-level emission whose caller set a field
named "level" to "hacked" finalizes an entry that maps "level" to "hacked",
not to the level name "info" — the caller's field, not the reserved key,
wins the collision. -/
theorem C1_counterexample :
    ((Event.Msg sampleFmt sampleMarshal (New DefaultOptions)
        (Event.Str (Logger.Info (New DefaultOptions) 0) "level" "hacked")
        "hello").entry.map (fun en => getK en "level"))
      = some (some (Value.vStr "hacked"))
  ∧ Value.vStr "hacked" ≠ Value.vStr (Level.String InfoLevel) := by
  constructor
  · decide
  · decide

/-- C1 amended: Msg finalizes the entry by writing the reserved keys level,
time and message first and then copying every event field over them, so on
a name collision the caller's field wins; the reserved keys reflect the
call's actual level name, formatted capture timestamp and message text
exactly for keys the event's field map does not bind. -/
theorem C1_fields_override_reserved (fmt : Nat → String → String)
    (marshal : Fields → Option String) (lg : Logger) (ed : EventData)
    (msg : String) (hu : keysUnique ed.fields) :
    (Event.Msg fmt marshal lg (some ed) msg).entry
      = some (buildEntry ed.level (fmt ed.time lg.timeFormat) msg ed.fields)
  ∧ (∀ k, getK (buildEntry ed.level (fmt ed.time lg.timeFormat) msg
        ed.fields) k =
      match getK ed.fields k with
      | some v => some v
      | none =>
        if k = "message" then some (Value.vStr msg)
        else if k = "time" then some (Value.vStr (fmt ed.time lg.timeFormat))
        else if k = "level" then some (Value.vStr (Level.String ed.level))
        else none) := by
  constructor
  · unfold Event.Msg
    cases h : marshal (buildEntry ed.level (fmt ed.time lg.timeFormat) msg
        ed.fields) <;> simp [h]
  · exact getK_buildEntry ed.level (fmt ed.time lg.timeFormat) msg ed.fields hu

/-- Witness for C1 at a concrete event carrying a caller-set "level"
field. -/
theorem C1_witness :
    keysUnique [("level", Value.vStr "hacked")]
  ∧ (Event.Msg sampleFmt sampleMarshal (New DefaultOptions)
      (some ⟨InfoLevel, 0, [("level", Value.vStr "hacked")]⟩) "m").entry
      = some (buildEntry InfoLevel (sampleFmt 0 (New DefaultOptions).timeFormat)
          "m" [("level", Value.vStr "hacked")]) :=
  ⟨by decide,
    (C1_fields_override_reserved sampleFmt sampleMarshal (New DefaultOptions)
      ⟨InfoLevel, 0, [("level", Value.vStr "hacked")]⟩ "m" (by decide)).1⟩

/-! ## C6: With is additive and non-destructive -/

/-- C6: With returns a fresh logger sharing the parent's sink, level and
time format, starting hookless, whose context map answers the new binding
for the new key and the parent's bindings elsewhere; layering a second With
over the same key makes the nearer binding win; and the fields seeding any
event created from the derived logger answer exactly those context
bindings.  The parent logger value itself is not modified (With allocates a
fresh map and copies). -/
theorem C6_with_additive (lg : Logger) (key : String) (value : Value)
    (hu : keysUnique lg.contextFields) :
    (lg.With key value).writer = lg.writer
  ∧ (lg.With key value).level = lg.level
  ∧ (lg.With key value).timeFormat = lg.timeFormat
  ∧ (lg.With key value).hooks = []
  ∧ (∀ k, getK (lg.With key value).contextFields k
      = if k = key then some value else getK lg.contextFields k)
  ∧ (∀ v2, getK ((lg.With key value).With key v2).contextFields key = some v2)
  ∧ (∀ now lvl ed, (lg.With key value).newEvent now lvl = some ed →
      ∀ k, getK ed.fields k
        = if k = key then some value else getK lg.contextFields k) := by
  have hbase : ∀ k, getK (lg.With key value).contextFields k
      = if k = key then some value else getK lg.contextFields k := by
    intro k
    show getK (setK (unionK [] lg.contextFields) key value) k = _
    rw [getK_setK, getK_unionK_nil lg.contextFields k hu]
  have huchild : keysUnique (lg.With key value).contextFields :=
    keysUnique_setK _ key value
      (keysUnique_unionK [] lg.contextFields (by simp [keysUnique]))
  refine ⟨rfl, rfl, rfl, rfl, hbase, ?_, ?_⟩
  · intro v2
    show getK (setK (unionK [] (lg.With key value).contextFields) key v2) key = _
    rw [getK_setK, if_pos rfl]
  · intro now lvl ed hev k
    unfold Logger.newEvent at hev
    by_cases h : lvl < (lg.With key value).level
    · rw [if_pos h] at hev
      cases hev
    · rw [if_neg h] at hev
      cases hev
      show getK (unionK [] (lg.With key value).contextFields) k = _
      rw [getK_unionK_nil _ k huchild, hbase k]

/-- Witness for C6: deriving from the default console logger binds the new
key and leaves every other lookup to the parent's (empty) context. -/
theorem C6_witness :
    keysUnique (New DefaultOptions).contextFields
  ∧ getK ((New DefaultOptions).With "app" (Value.vStr "srv")).contextFields
      "app" = some (Value.vStr "srv") := by
  refine ⟨by decide, ?_⟩
  have h := (C6_with_additive (New DefaultOptions) "app" (Value.vStr "srv")
    (by decide)).2.2.2.2.1 "app"
  simpa using h

/-! ## Hook dispatch lemmas -/

/-- The dispatch fold appends exactly the firing hooks, in list order. -/
theorem fireHooks_foldl (hs : List Hook) (lvl : Level) (entry : Fields)
    (acc : List (Nat × Fields)) :
    hs.foldl (fun a h => if shouldFire h lvl then a ++ [(h.id, entry)] else a)
        acc
      = acc ++ (hs.filter (fun hh => shouldFire hh lvl)).map
          (fun hh => (hh.id, entry)) := by
  induction hs generalizing acc with
  | nil => simp
  | cons h rest ih =>
    by_cases hf : shouldFire h lvl
    · simp [hf, ih, List.filter_cons]
    · simp [hf, ih, List.filter_cons]

/-- Dispatch equals the filter of firing hooks mapped to their records. -/
theorem fireHooks_eq (hs : List Hook) (lvl : Level) (entry : Fields) :
    fireHooks hs lvl entry
      = (hs.filter (fun hh => shouldFire hh lvl)).map
          (fun hh => (hh.id, entry)) := by
  unfold fireHooks
  rw [fireHooks_foldl]
  simp

/-- Counting a registered hook's identity among the hooks that pass a test,
when identities are pairwise distinct: one when the hook passes, zero
otherwise. -/
theorem countP_id_filter (hs : List Hook) (h : Hook) (q : Hook → Bool)
    (hmem : h ∈ hs) (hnd : (hs.map Hook.id).Nodup) :
    hs.countP (fun hh => decide (hh.id = h.id) && q hh)
      = if q h then 1 else 0 := by
  induction hs with
  | nil => cases hmem
  | cons x rest ih =>
    rw [List.map_cons, List.nodup_cons] at hnd
    rw [List.countP_cons]
    rcases List.mem_cons.mp hmem with hx | hx
    · subst hx
      have hzero : rest.countP (fun hh => decide (hh.id = h.id) && q hh) = 0 := by
        rw [List.countP_eq_zero]
        intro a ha
        have hne : a.id ≠ h.id := fun he =>
          hnd.1 (he ▸ List.mem_map_of_mem Hook.id ha)
        simp [hne]
      rw [hzero]
      simp
    · have hne : x.id ≠ h.id := fun he =>
        hnd.1 (he ▸ List.mem_map_of_mem Hook.id hx)
      rw [ih hx hnd.2]
      simp [hne]

/-- With pairwise distinct hook identities, dispatch records a registered
hook's identity exactly once when it subscribes to the level and zero times
otherwise. -/
theorem fireHooks_countP (hs : List Hook) (lvl : Level) (entry : Fields)
    (h : Hook) (hmem : h ∈ hs) (hnd : (hs.map Hook.id).Nodup) :
    (fireHooks hs lvl entry).countP (fun p => decide (p.1 = h.id))
      = if shouldFire h lvl then 1 else 0 := by
  rw [fireHooks_eq, List.countP_map, List.countP_filter]
  exact countP_id_filter hs h (fun hh => shouldFire hh lvl) hmem hnd

/-- Removing a registered hook leaves no hook with its identity when
identities are pairwise distinct. -/
theorem removeFirst_id (hs : List Hook) (h : Hook) (hmem : h ∈ hs)
    (hnd : (hs.map Hook.id).Nodup) :
    ∀ x ∈ removeFirst hs h, x.id ≠ h.id := by
  induction hs with
  | nil => cases hmem
  | cons y rest ih =>
    rw [List.map_cons, List.nodup_cons] at hnd
    intro x hx
    by_cases hy : y = h
    · rw [removeFirst, if_pos hy] at hx
      intro he
      exact (hy ▸ hnd.1) (he ▸ List.mem_map_of_mem Hook.id hx)
    · rw [removeFirst, if_neg hy] at hx
      have hm : h ∈ rest := by
        rcases List.mem_cons.mp hmem with hh | hh
        · exact absurd hh.symm hy
        · exact hh
      rcases List.mem_cons.mp hx with hh | hh
      · subst hh
        intro he
        exact hnd.1 (he ▸ List.mem_map_of_mem Hook.id hm)
      · exact ih hm hnd.2 x hh

/-! ## C4: hook dispatch -/

/-- C4: for an emitted entry (serializer succeeding) and a hook registered
in a logger whose hooks are pairwise distinct objects, dispatch records the
hook exactly once when the entry's level is in its Levels() list and zero
times otherwise; the firing records are exactly the firing hooks of the
registration list in registration order; and after RemoveHook no firing of
a subsequent emission carries the removed hook's identity. -/
theorem C4_hook_dispatch (fmt : Nat → String → String)
    (marshal : Fields → Option String) (lg : Logger) (ed : EventData)
    (msg : String) (h : Hook)
    (hm : ∀ fs : Fields, (marshal fs).isSome)
    (hmem : h ∈ lg.hooks)
    (hnd : (lg.hooks.map Hook.id).Nodup) :
    ((Event.Msg fmt marshal lg (some ed) msg).fired.countP
        (fun p => decide (p.1 = h.id)))
      = (if shouldFire h ed.level then 1 else 0)
  ∧ (Event.Msg fmt marshal lg (some ed) msg).fired
      = (lg.hooks.filter (fun hh => shouldFire hh ed.level)).map
          (fun hh => (hh.id,
            buildEntry ed.level (fmt ed.time lg.timeFormat) msg ed.fields))
  ∧ (∀ p ∈ (Event.Msg fmt marshal (lg.RemoveHook h) (some ed) msg).fired,
      p.1 ≠ h.id) := by
  obtain ⟨s, hs⟩ := Option.isSome_iff_exists.mp
    (hm (buildEntry ed.level (fmt ed.time lg.timeFormat) msg ed.fields))
  have hfired : (Event.Msg fmt marshal lg (some ed) msg).fired
      = fireHooks lg.hooks ed.level
          (buildEntry ed.level (fmt ed.time lg.timeFormat) msg ed.fields) := by
    unfold Event.Msg
    simp only [hs]
  have hfired2 : (Event.Msg fmt marshal (lg.RemoveHook h) (some ed) msg).fired
      = fireHooks (removeFirst lg.hooks h) ed.level
          (buildEntry ed.level (fmt ed.time lg.timeFormat) msg ed.fields) := by
    unfold Event.Msg
    have htf : (lg.RemoveHook h).timeFormat = lg.timeFormat := rfl
    rw [htf]
    simp only [hs]
    rfl
  refine ⟨?_, ?_, ?_⟩
  · rw [hfired]
    exact fireHooks_countP lg.hooks ed.level _ h hmem hnd
  · rw [hfired]
    exact fireHooks_eq lg.hooks ed.level _
  · intro p hp
    rw [hfired2, fireHooks_eq] at hp
    rcases List.mem_map.mp hp with ⟨hh, hh1, hh2⟩
    have hmem2 : hh ∈ removeFirst lg.hooks h := List.mem_of_mem_filter hh1
    have := removeFirst_id lg.hooks h hmem hnd hh hmem2
    rw [← hh2]
    exact this

/-- Witness for C4: a logger carrying an Info hook and an Error hook; an
Info emission records the Info hook exactly once. -/
theorem C4_witness :
    ⟨1, [InfoLevel]⟩ ∈ (⟨0, 0, "", [], [⟨1, [InfoLevel]⟩, ⟨2, [ErrorLevel]⟩]⟩ : Logger).hooks
  ∧ ((Event.Msg sampleFmt sampleMarshal
        ⟨0, 0, "", [], [⟨1, [InfoLevel]⟩, ⟨2, [ErrorLevel]⟩]⟩
        (some ⟨InfoLevel, 0, []⟩) "m").fired.countP
      (fun p => decide (p.1 = (⟨1, [InfoLevel]⟩ : Hook).id)))
      = (if shouldFire ⟨1, [InfoLevel]⟩ (⟨InfoLevel, 0, []⟩ : EventData).level
          then 1 else 0) :=
  ⟨by decide,
    (C4_hook_dispatch sampleFmt sampleMarshal
      ⟨0, 0, "", [], [⟨1, [InfoLevel]⟩, ⟨2, [ErrorLevel]⟩]⟩
      ⟨InfoLevel, 0, []⟩ "m" ⟨1, [InfoLevel]⟩ (fun _ => rfl)
      (by decide) (by decide)).1⟩

/-! ## Permutation enumeration (for map iteration orders) -/

/-- All ways to insert an element into a list. -/
def insertEverywhere {α : Type} (a : α) : List α → List (List α)
  | [] => [[a]]
  | b :: rest => (a :: b :: rest) :: (insertEverywhere a rest).map (b :: ·)

/-- All reorderings of a list, by iterated insertion; used to quantify over
the unspecified iteration orders of a Go map. -/
def allPerms {α : Type} : List α → List (List α)
  | [] => [[]]
  | a :: rest => ((allPerms rest).map (insertEverywhere a)).flatten

/-- A list containing a is an insertion of a into the list with its first
occurrence of a erased. -/
theorem mem_insertEverywhere_self {α : Type} [DecidableEq α] (a : α) :
    ∀ p : List α, a ∈ p → p ∈ insertEverywhere a (p.erase a) := by
  intro p
  induction p with
  | nil => intro h; cases h
  | cons b rest ih =>
    intro hmem
    by_cases hb : b = a
    · subst hb
      rw [List.erase_cons_head]
      cases rest with
      | nil => exact List.mem_singleton.mpr rfl
      | cons c rest2 => exact List.mem_cons_self _ _
    · rw [List.erase_cons_tail (by simpa using hb)]
      have hmem2 : a ∈ rest := by
        rcases List.mem_cons.mp hmem with h | h
        · exact absurd h.symm hb
        · exact h
      show b :: rest ∈ (a :: b :: rest.erase a) ::
        (insertEverywhere a (rest.erase a)).map (b :: ·)
      refine List.mem_cons.mpr (Or.inr ?_)
      exact List.mem_map_of_mem (b :: ·) (ih hmem2)

/-- Completeness of the enumeration: every reordering of l occurs in
allPerms l. -/
theorem mem_allPerms_of_perm {α : Type} [DecidableEq α] :
    ∀ {l p : List α}, p.Perm l → p ∈ allPerms l := by
  intro l
  induction l with
  | nil =>
    intro p hp
    rw [hp.eq_nil]
    exact List.mem_singleton.mpr rfl
  | cons a rest ih =>
    intro p hp
    have ha : a ∈ p := hp.mem_iff.mpr (List.mem_cons_self a rest)
    have hq : (p.erase a).Perm rest := by
      have := hp.erase a
      rwa [List.erase_cons_head] at this
    have hq2 : p.erase a ∈ allPerms rest := ih hq
    show p ∈ ((allPerms rest).map (insertEverywhere a)).flatten
    rw [List.mem_flatten]
    exact ⟨insertEverywhere a (p.erase a),
      List.mem_map_of_mem (insertEverywhere a) hq2,
      mem_insertEverywhere_self a p ha⟩

/-! ## C5: NatsHook subject substitution -/

/-- The finalized entry of the README scenario: level info, component api,
together with the reserved time and message bindings (string values free of
braces). -/
def scenarioEntry : Fields :=
  [("level", Value.vStr "info"), ("time", Value.vStr "t"),
   ("message", Value.vStr "m"), ("component", Value.vStr "api")]

/-- C5 counterexample: the substitution the source performs is sequential,
not single-pass — with the map iteration order that processes key "a"
before key "b", the placeholder introduced by substituting a's value is
itself substituted, so Fire resolves template \x7ba\x7d to "X", while the
claimed single-pass non-recursive substitution resolves it to "\x7bb\x7d". -/
theorem C5_counterexample :
    natsSubstitute [("a", Value.vStr "\x7bb\x7d"), ("b", Value.vStr "X")]
        "\x7ba\x7d" = "X"
  ∧ specSubstSinglePass [("a", Value.vStr "\x7bb\x7d"), ("b", Value.vStr "X")]
        "\x7ba\x7d" = "\x7bb\x7d"
  ∧ natsSubstitute [("a", Value.vStr "\x7bb\x7d"), ("b", Value.vStr "X")]
        "\x7ba\x7d"
      ≠ specSubstSinglePass [("a", Value.vStr "\x7bb\x7d"), ("b", Value.vStr "X")]
        "\x7ba\x7d" := by
  refine ⟨by decide, by decide, by decide⟩

/-- C5 amended: Fire substitutes by iterating the entry's bindings in the
map's iteration order (unspecified), each string-valued binding replacing
every occurrence of its \x7bkey\x7d in the current subject, so a placeholder
introduced by an earlier substitution may be rewritten by a key processed
later; a placeholder no binding resolves is left verbatim; and for the
scenario template logs.\x7blevel\x7d.\x7bcomponent\x7d with level info and
component api (values free of braces) every iteration order publishes to
exactly logs.info.api. -/
theorem C5_subject_substitution :
    (∀ p : Fields, p.Perm scenarioEntry →
      natsSubstitute p "logs.\x7blevel\x7d.\x7bcomponent\x7d" = "logs.info.api")
  ∧ (∀ p : Fields, p.Perm scenarioEntry →
      NatsHook.Fire sampleMarshal
          (NewNatsHook "logs.\x7blevel\x7d.\x7bcomponent\x7d"
            [InfoLevel, ErrorLevel]) p
        = some ("logs.info.api", "json"))
  ∧ natsSubstitute scenarioEntry "logs.\x7bmissing\x7d"
      = "logs.\x7bmissing\x7d" := by
  have hall : ∀ p ∈ allPerms scenarioEntry,
      natsSubstitute p "logs.\x7blevel\x7d.\x7bcomponent\x7d"
        = "logs.info.api" := by decide
  have hfirst : ∀ p : Fields, p.Perm scenarioEntry →
      natsSubstitute p "logs.\x7blevel\x7d.\x7bcomponent\x7d"
        = "logs.info.api" :=
    fun p hp => hall p (mem_allPerms_of_perm hp)
  refine ⟨hfirst, fun p hp => ?_, by decide⟩
  show NatsHook.Fire sampleMarshal
      ⟨"logs.\x7blevel\x7d.\x7bcomponent\x7d", [InfoLevel, ErrorLevel]⟩ p = _
  unfold NatsHook.Fire
  rw [hfirst p hp]
  rfl

/-- Witness for C5 at the identity iteration order of the scenario entry. -/
theorem C5_witness :
    scenarioEntry.Perm scenarioEntry
  ∧ natsSubstitute scenarioEntry "logs.\x7blevel\x7d.\x7bcomponent\x7d"
      = "logs.info.api" :=
  ⟨List.Perm.refl scenarioEntry,
    C5_subject_substitution.1 scenarioEntry (List.Perm.refl scenarioEntry)⟩
